import Mathlib

/-!
Verification of the irontelemetry-js client-side telemetry pipeline,
shallowly embedded from the TypeScript source: the breadcrumb buffer
(src/breadcrumbs.ts), the journey/step state machine (journey module),
the offline queue and HTTP transport (src/transport.ts, src/queue.ts)
and the client orchestration (src/client.ts).

Dates are modelled as integers counting milliseconds since the epoch,
the resolution of the JavaScript Date type.  The ISO-8601 string
produced by Date.prototype.toISOString keeps full millisecond precision
and is in bijection with that integer, so a wire timestamp string is
modelled by the millisecond instant it denotes (structure IsoDateString).
-/

/-- JSON-representable values stored in the Record<string, unknown>
fields of the data model. -/
inductive JVal where
  | str (s : String)
  | num (n : Int)
  | bool (b : Bool)
  | null
deriving DecidableEq, Repr

/-- Stack frame information (types.ts, StackFrame). -/
structure StackFrame where
  function : Option String
  filename : Option String
  lineno : Option Nat
  colno : Option Nat
  context : Option (List String)
deriving DecidableEq, Repr

/-- Exception information (types.ts, ExceptionInfo). -/
structure ExceptionInfo where
  type : String
  message : String
  stacktrace : Option (List StackFrame)
deriving DecidableEq, Repr

/-- User context (types.ts, User). -/
structure User where
  id : String
  email : Option String
  name : Option String
  data : Option (List (String × JVal))
deriving DecidableEq, Repr

/-- A breadcrumb (types.ts, Breadcrumb); the category is one of the
string literals of BreadcrumbCategory, kept as a string as at runtime. -/
structure Breadcrumb where
  timestamp : Int
  category : String
  message : String
  level : Option String
  data : Option (List (String × JVal))
deriving DecidableEq, Repr

/-- Journey context attached to events (types.ts, JourneyContext). -/
structure JourneyContext where
  journeyId : String
  name : String
  currentStep : Option String
  startedAt : Int
  metadata : List (String × JVal)
deriving DecidableEq, Repr

/-- Platform information (types.ts, PlatformInfo). -/
structure PlatformInfo where
  name : String
  version : Option String
  os : Option String
  userAgent : Option String
deriving DecidableEq, Repr

/-- The event payload (types.ts, TelemetryEvent). -/
structure TelemetryEvent where
  eventId : String
  timestamp : Int
  level : String
  message : Option String
  exception : Option ExceptionInfo
  user : Option User
  tags : List (String × String)
  extra : List (String × JVal)
  breadcrumbs : List Breadcrumb
  journey : Option JourneyContext
  environment : Option String
  appVersion : Option String
  platform : PlatformInfo
deriving DecidableEq, Repr

/-- Result of sending an event (types.ts, SendResult). -/
structure SendResult where
  success : Bool
  eventId : Option String
  error : Option String
  queued : Option Bool
deriving DecidableEq, Repr

/-- A minimal concrete event used in concrete evaluations. -/
def mkEvent (id : String) : TelemetryEvent :=
  { eventId := id
    timestamp := 0
    level := "error"
    message := none
    exception := none
    user := none
    tags := []
    extra := []
    breadcrumbs := []
    journey := none
    environment := none
    appVersion := none
    platform := { name := "node", version := none, os := none, userAgent := none } }

/-- A concrete event with a message, used where two distinct events must
share an eventId. -/
def mkEventMsg (id msg : String) : TelemetryEvent :=
  { mkEvent id with message := some msg }

/-! ## Persisted queue wire format (transport.ts, OfflineQueue.save / deserializeEvent)

JSON.stringify turns every Date into its ISO-8601 string via toJSON;
new Date(string) parses it back.  At millisecond precision this pair of
conversions is a bijection, so the stored string is modelled by the
instant it denotes. -/

/-- An ISO-8601 timestamp string, modelled by the millisecond instant it
denotes. -/
structure IsoDateString where
  ms : Int
deriving DecidableEq, Repr

/-- Date.prototype.toISOString, applied by JSON.stringify to every Date. -/
def Date.toISOString (d : Int) : IsoDateString := ⟨d⟩

/-- The Date constructor applied to an ISO-8601 string. -/
def Date.parse (s : IsoDateString) : Int := s.ms

/-- A breadcrumb as it appears in the persisted JSON array. -/
structure StoredBreadcrumb where
  timestamp : IsoDateString
  category : String
  message : String
  level : Option String
  data : Option (List (String × JVal))
deriving DecidableEq, Repr

/-- A journey context as it appears in the persisted JSON array. -/
structure StoredJourney where
  journeyId : String
  name : String
  currentStep : Option String
  startedAt : IsoDateString
  metadata : List (String × JVal)
deriving DecidableEq, Repr

/-- An event element of the persisted JSON array: the image of a
TelemetryEvent under JSON.stringify, where every Date has become its
ISO-8601 string. -/
structure StoredEvent where
  eventId : String
  timestamp : IsoDateString
  level : String
  message : Option String
  exception : Option ExceptionInfo
  user : Option User
  tags : List (String × String)
  extra : List (String × JVal)
  breadcrumbs : List StoredBreadcrumb
  journey : Option StoredJourney
  environment : Option String
  appVersion : Option String
  platform : PlatformInfo
deriving DecidableEq, Repr

/-- The image of one queued breadcrumb under JSON.stringify (OfflineQueue.save). -/
def persistBreadcrumb (b : Breadcrumb) : StoredBreadcrumb :=
  { timestamp := Date.toISOString b.timestamp
    category := b.category
    message := b.message
    level := b.level
    data := b.data }

/-- The image of one queued journey context under JSON.stringify (OfflineQueue.save). -/
def persistJourney (j : JourneyContext) : StoredJourney :=
  { journeyId := j.journeyId
    name := j.name
    currentStep := j.currentStep
    startedAt := Date.toISOString j.startedAt
    metadata := j.metadata }

/-- The image of one queued event under JSON.stringify (OfflineQueue.save
writes the whole queue as a JSON array of these objects). -/
def persistEvent (e : TelemetryEvent) : StoredEvent :=
  { eventId := e.eventId
    timestamp := Date.toISOString e.timestamp
    level := e.level
    message := e.message
    exception := e.exception
    user := e.user
    tags := e.tags
    extra := e.extra
    breadcrumbs := e.breadcrumbs.map persistBreadcrumb
    journey := e.journey.map persistJourney
    environment := e.environment
    appVersion := e.appVersion
    platform := e.platform }

namespace OfflineQueue

/-- OfflineQueue.deserializeEvent (transport.ts lines 517 to 532): spread
the stored object and re-parse the three Date fields. -/
def deserializeEvent (data : StoredEvent) : TelemetryEvent :=
  { eventId := data.eventId
    timestamp := Date.parse data.timestamp
    level := data.level
    message := data.message
    exception := data.exception
    user := data.user
    tags := data.tags
    extra := data.extra
    breadcrumbs := data.breadcrumbs.map (fun b =>
      { timestamp := Date.parse b.timestamp
        category := b.category
        message := b.message
        level := b.level
        data := b.data })
    journey := match data.journey with
      | some j => some
          { journeyId := j.journeyId
            name := j.name
            currentStep := j.currentStep
            startedAt := Date.parse j.startedAt
            metadata := j.metadata }
      | none => none
    environment := data.environment
    appVersion := data.appVersion
    platform := data.platform }

/-- OfflineQueue.load: absent or unreadable storage leaves the queue
empty, otherwise every stored element is deserialized in order.  The
loaded list is not trimmed to maxSize. -/
def load (stored : Option (List StoredEvent)) : List TelemetryEvent :=
  match stored with
  | none => []
  | some l => l.map deserializeEvent

/-- OfflineQueue.enqueue (transport.ts lines 426 to 441): when the queue
already holds at least maxSize events, shift exactly one (the oldest)
before pushing the new event. -/
def enqueue (maxSize : Nat) (queue : List TelemetryEvent) (event : TelemetryEvent) :
    List TelemetryEvent :=
  (if maxSize ≤ queue.length then queue.drop 1 else queue) ++ [event]

/-- A sequence of enqueue calls starting from a given queue state. -/
def enqueueAll (maxSize : Nat) (init : List TelemetryEvent) (evs : List TelemetryEvent) :
    List TelemetryEvent :=
  evs.foldl (enqueue maxSize) init

/-- OfflineQueue.remove (transport.ts lines 453 to 456): filter keeps
every entry whose eventId differs from the argument, so all matching
entries are deleted. -/
def remove (eventId : String) (queue : List TelemetryEvent) : List TelemetryEvent :=
  queue.filter (fun e => e.eventId != eventId)

end OfflineQueue

/-! ## Queue drain (client.ts, TelemetryClient.processQueue lines 235 to 253)

The loop snapshots the queue with getAll, calls transport.send on every
snapshot element in order, and removes an element from the live queue
immediately when its send succeeds.  The network is modelled by the
online flag returned by transport.isOnline and by sendOk, the success
predicate of transport.send for this drain. -/

/-- The for-loop of processQueue over the snapshot, threading the live
queue through the successive removals. -/
def drainLoop (sendOk : TelemetryEvent → Bool) (events queue : List TelemetryEvent) :
    List TelemetryEvent :=
  match events with
  | [] => queue
  | e :: rest =>
      drainLoop sendOk rest (if sendOk e then OfflineQueue.remove e.eventId queue else queue)

/-- TelemetryClient.processQueue: returns the final queue together with
the list of events on which transport.send was invoked, in invocation
order. -/
def processQueue (online : Bool) (sendOk : TelemetryEvent → Bool)
    (queue : List TelemetryEvent) : List TelemetryEvent × List TelemetryEvent :=
  if queue.isEmpty then (queue, [])
  else if !online then (queue, [])
  else (drainLoop sendOk queue queue, queue)

/-- Each removal in the drain loop filters the live queue by eventId, so
the loop as a whole filters the queue by membership of the eventId in
the successful part of the snapshot. -/
lemma drainLoop_eq_filter (sendOk : TelemetryEvent → Bool) :
    ∀ (evs queue : List TelemetryEvent),
      drainLoop sendOk evs queue =
        queue.filter (fun x =>
          !(((evs.filter sendOk).map TelemetryEvent.eventId).contains x.eventId)) := by
  intro evs
  induction evs with
  | nil =>
      intro queue
      simp [drainLoop]
  | cons e rest ih =>
      intro queue
      by_cases h : sendOk e = true
      · simp only [drainLoop, h, if_pos, OfflineQueue.remove, ih, List.filter_filter,
          List.filter_cons_of_pos, List.map_cons]
        apply List.filter_congr
        intro x _
        simp [List.contains_cons, Bool.not_or, Bool.and_comm, bne, BEq.comm]
      · have h0 : sendOk e = false := by revert h; cases sendOk e <;> simp
        simp [drainLoop, h0, ih]

/-- C1: draining a queue of events with pairwise-distinct eventIds while
Transport is online and succeeds for a strict subset S removes exactly
the events in S, keeping the rest in their original relative order;
every queued event is attempted in enqueue (FIFO) order, and after any
prefix of the attempts the live queue is the original minus exactly the
successes of that prefix, so each success is removed immediately and no
failure blocks earlier removals or later attempts. -/
theorem drain_removes_exactly_successes (queue : List TelemetryEvent)
    (sendOk : TelemetryEvent → Bool)
    (hids : (queue.map TelemetryEvent.eventId).Nodup)
    (hstrict : ∃ e ∈ queue, sendOk e = false) :
    (processQueue true sendOk queue).1 = queue.filter (fun e => !sendOk e) ∧
    (processQueue true sendOk queue).2 = queue ∧
    ∀ p s, queue = p ++ s →
      drainLoop sendOk p queue = queue.filter (fun e => !(decide (e ∈ p) && sendOk e)) := by
  have hinj : ∀ x ∈ queue, ∀ y ∈ queue, x.eventId = y.eventId → x = y :=
    fun x hx y hy hxy => List.inj_on_of_nodup_map hids hx hy hxy
  have hne : queue.isEmpty = false := by
    obtain ⟨e, he, _⟩ := hstrict
    cases queue with
    | nil => exact absurd he (List.not_mem_nil e)
    | cons a l => rfl
  have hproc : processQueue true sendOk queue = (drainLoop sendOk queue queue, queue) := by
    simp [processQueue, hne]
  have hkey : ∀ (p : List TelemetryEvent), (∀ y ∈ p, y ∈ queue) →
      drainLoop sendOk p queue
        = queue.filter (fun e => !(decide (e ∈ p) && sendOk e)) := by
    intro p hp
    rw [drainLoop_eq_filter]
    apply List.filter_congr
    intro x hx
    have : ((p.filter sendOk).map TelemetryEvent.eventId).contains x.eventId
        = (decide (x ∈ p) && sendOk x) := by
      by_cases hmem : x ∈ p ∧ sendOk x = true
      · have : x.eventId ∈ (p.filter sendOk).map TelemetryEvent.eventId :=
          List.mem_map_of_mem TelemetryEvent.eventId
            (List.mem_filter.mpr ⟨hmem.1, hmem.2⟩)
        simp [List.contains, List.elem_iff, this, hmem.1, hmem.2]
      · have hnot : x.eventId ∉ (p.filter sendOk).map TelemetryEvent.eventId := by
          intro hcon
          obtain ⟨y, hy, hyid⟩ := List.mem_map.mp hcon
          obtain ⟨hyp, hysend⟩ := List.mem_filter.mp hy
          have : y = x := hinj y (hp y hyp) x hx hyid
          subst this
          exact hmem ⟨hyp, hysend⟩
        have hand : (decide (x ∈ p) && sendOk x) = false := by
          rcases Decidable.em (x ∈ p) with hxp | hxp
          · have : sendOk x = false := by
              revert hmem
              cases sendOk x <;> simp [hxp]
            simp [this]
          · simp [hxp]
        simp [List.contains, List.elem_iff, hnot, hand]
    rw [this]
  refine ⟨?_, ?_, ?_⟩
  · rw [hproc]
    have := hkey queue (fun y hy => hy)
    simp only [this]
    apply List.filter_congr
    intro x hx
    simp [hx]
  · rw [hproc]
  · intro p s hps
    exact hkey p (fun y hy => by rw [hps]; exact List.mem_append_left s hy)

/-- Witness for C1 at a concrete two-event queue where only the first
send succeeds. -/
theorem drain_removes_exactly_successes_witness :
    (processQueue true (fun e => e.eventId == "a") [mkEvent "a", mkEvent "b"]).1
        = [mkEvent "b"] ∧
    (processQueue true (fun e => e.eventId == "a") [mkEvent "a", mkEvent "b"]).2
        = [mkEvent "a", mkEvent "b"] := by
  have h := drain_removes_exactly_successes [mkEvent "a", mkEvent "b"]
      (fun e => e.eventId == "a") (by decide) ⟨mkEvent "b", by decide, by decide⟩
  refine ⟨?_, h.2.1⟩
  rw [h.1]
  decide

/-! ## Bounded FIFO buffers

Both the offline queue and the breadcrumb buffer evict the single
oldest entry when an insertion would exceed capacity.  The shared
characterization: folding such an insertion over a sequence keeps
exactly the suffix of capacity M of everything ever inserted. -/

/-- Folding a drop-oldest bounded insertion keeps the newest M entries. -/
lemma bounded_foldl_suffix {α : Type} (M : Nat) (hM : 1 ≤ M)
    (step : List α → α → List α)
    (hlow : ∀ l x, l.length < M → step l x = l ++ [x])
    (hfull : ∀ l x, l.length = M → step l x = (l ++ [x]).drop 1) :
    ∀ (bs init : List α), init.length ≤ M →
      bs.foldl step init = (init ++ bs).drop ((init ++ bs).length - M) := by
  intro bs
  induction bs with
  | nil =>
      intro init hinit
      have h0 : init.length - M = 0 := Nat.sub_eq_zero_of_le hinit
      simp [h0]
  | cons x bs ih =>
      intro init hinit
      rcases Nat.lt_or_ge init.length M with h | h
      · rw [List.foldl_cons, hlow init x h,
          ih (init ++ [x]) (by simp; omega)]
        simp [List.append_assoc]
      · have hlen : init.length = M := Nat.le_antisymm hinit h
        rw [List.foldl_cons, hfull init x hlen,
          ih ((init ++ [x]).drop 1) (by simp [hlen])]
        cases init with
        | nil =>
            rw [List.length_nil] at hlen
            omega
        | cons a t =>
            have ht : t.length + 1 = M := by simpa using hlen
            simp only [List.cons_append, List.drop_succ_cons, List.drop_zero]
            have e1 : (t ++ [x]) ++ bs = t ++ x :: bs := by simp
            rw [e1]
            have h2 : (a :: (t ++ x :: bs)).length - M = bs.length + 1 := by
              simp [List.length_append]
              omega
            have h3 : (t ++ x :: bs).length - M = bs.length := by
              simp [List.length_append]
              omega
            rw [h2, h3, List.drop_succ_cons]

/-- An enqueue into a queue below capacity appends. -/
lemma enqueue_step_low (M : Nat) (l : List TelemetryEvent) (x : TelemetryEvent)
    (h : l.length < M) : OfflineQueue.enqueue M l x = l ++ [x] := by
  simp [OfflineQueue.enqueue, Nat.not_le_of_lt h]

/-- An enqueue into a queue exactly at capacity shifts the oldest entry
and appends. -/
lemma enqueue_step_full (M : Nat) (hM : 1 ≤ M) (l : List TelemetryEvent)
    (x : TelemetryEvent) (h : l.length = M) :
    OfflineQueue.enqueue M l x = (l ++ [x]).drop 1 := by
  have h1 : M ≤ l.length := le_of_eq h.symm
  have hpos : (1 : Nat) ≤ l.length := by omega
  simp only [OfflineQueue.enqueue, if_pos h1]
  rw [List.drop_append_of_le_length hpos]

/-- C2 counterexample: the claim quantifies over every constructed
queue, but construction loads the persisted store untrimmed, so a store
holding more events than the capacity M yields a queue that stays above
M across enqueues (here M = 1 and the queue has length 2 after an
enqueue); and with M = 0 a single enqueue already yields length 1. -/
theorem offline_queue_capacity_counterexample :
    (OfflineQueue.enqueue 1
        (OfflineQueue.load (some [persistEvent (mkEvent "a"), persistEvent (mkEvent "b")]))
        (mkEvent "c")).length = 2 ∧
    (OfflineQueue.enqueue 0 (OfflineQueue.load none) (mkEvent "a")).length = 1 := by
  decide

/-- C2 amended: for capacity M at least 1 and an initial queue of length
at most M (in particular the empty queue from absent storage), the
queue length never exceeds M, the queue is always the newest-M suffix
of everything enqueued after the initial contents, at least M enqueues
leave exactly the M most recent enqueued events in FIFO order, and an
enqueue at capacity drops exactly the oldest entry. -/
theorem offline_queue_capacity_amended (M : Nat) (hM : 1 ≤ M)
    (init evs : List TelemetryEvent) (hinit : init.length ≤ M) :
    (OfflineQueue.enqueueAll M init evs).length ≤ M ∧
    OfflineQueue.enqueueAll M init evs = (init ++ evs).drop ((init ++ evs).length - M) ∧
    (M ≤ evs.length →
      OfflineQueue.enqueueAll M init evs = evs.drop (evs.length - M)) ∧
    (∀ (q : List TelemetryEvent) (e : TelemetryEvent), q.length = M →
      OfflineQueue.enqueue M q e = q.drop 1 ++ [e]) := by
  have main : OfflineQueue.enqueueAll M init evs
      = (init ++ evs).drop ((init ++ evs).length - M) := by
    exact bounded_foldl_suffix M hM (OfflineQueue.enqueue M)
      (fun l x h => enqueue_step_low M l x h)
      (fun l x h => enqueue_step_full M hM l x h) evs init hinit
  refine ⟨?_, main, ?_, ?_⟩
  · rw [main, List.length_drop]
    omega
  · intro hMe
    rw [main]
    have h4 : (init ++ evs).length - M = init.length + (evs.length - M) := by
      simp [List.length_append]
      omega
    rw [h4, List.drop_append]
  · intro q e h
    simp [OfflineQueue.enqueue, le_of_eq h.symm]

/-- Witness for the amended C2 at capacity 2 with three enqueues into an
initially empty queue. -/
theorem offline_queue_capacity_amended_witness :
    (OfflineQueue.enqueueAll 2 [] [mkEvent "a", mkEvent "b", mkEvent "c"]).length ≤ 2 ∧
    OfflineQueue.enqueueAll 2 [] [mkEvent "a", mkEvent "b", mkEvent "c"]
      = [mkEvent "b", mkEvent "c"] := by
  have h := offline_queue_capacity_amended 2 (by decide) []
      [mkEvent "a", mkEvent "b", mkEvent "c"] (by decide)
  refine ⟨h.1, ?_⟩
  rw [h.2.2.1 (by decide)]
  decide

/-- C10 counterexample: with two queued events sharing eventId x, the
drain loop iterates over the pre-drain snapshot, so transport.send is
invoked on the second entry as well (two attempts carry id x), even
though the success of the first already removed both copies from the
queue; the claim says the second is never attempted again after the
first succeeds. -/
theorem drain_duplicate_id_attempt_counterexample :
    ((processQueue true (fun _ => true) [mkEvent "x", mkEventMsg "x" "second"]).2.filter
        (fun e => e.eventId == "x")).length = 2 ∧
    (processQueue true (fun _ => true) [mkEvent "x", mkEventMsg "x" "second"]).1 = [] := by
  decide

/-- C10 amended: remove deletes every queued entry whose eventId equals
the argument, not only the first; hence when any event with id X
succeeds during a drain, the post-drain queue holds no entry with id X
and no subsequent drain ever attempts id X again — but within the same
drain every snapshot entry, the duplicate included, is still attempted
once, because the loop iterates the pre-drain snapshot. -/
theorem remove_deletes_all_matching_amended (queue : List TelemetryEvent)
    (sendOk : TelemetryEvent → Bool) (X : String)
    (hX : ∃ e ∈ queue, e.eventId = X ∧ sendOk e = true) :
    (∀ e ∈ OfflineQueue.remove X queue, e.eventId ≠ X) ∧
    (∀ e ∈ (processQueue true sendOk queue).1, e.eventId ≠ X) ∧
    (processQueue true sendOk queue).2 = queue ∧
    (∀ e ∈ (processQueue true sendOk (processQueue true sendOk queue).1).2,
      e.eventId ≠ X) := by
  have hne : queue.isEmpty = false := by
    obtain ⟨e, he, _⟩ := hX
    cases queue with
    | nil => exact absurd he (List.not_mem_nil e)
    | cons a l => rfl
  have hproc : processQueue true sendOk queue = (drainLoop sendOk queue queue, queue) := by
    simp [processQueue, hne]
  have hrem : ∀ e ∈ OfflineQueue.remove X queue, e.eventId ≠ X := by
    intro e he
    have := (List.mem_filter.mp he).2
    simpa using this
  have hfinal : ∀ e ∈ (processQueue true sendOk queue).1, e.eventId ≠ X := by
    intro e he
    rw [hproc] at he
    rw [drainLoop_eq_filter] at he
    obtain ⟨heq, hpred⟩ := List.mem_filter.mp he
    intro hcontra
    obtain ⟨w, hw, hwid, hwsend⟩ := hX
    have hmem : X ∈ (queue.filter sendOk).map TelemetryEvent.eventId := by
      rw [← hwid]
      exact List.mem_map_of_mem TelemetryEvent.eventId (List.mem_filter.mpr ⟨hw, hwsend⟩)
    rw [hcontra] at hpred
    simp [List.contains, List.elem_iff, hmem] at hpred
  refine ⟨hrem, hfinal, by rw [hproc], ?_⟩
  intro e he
  set q1 := (processQueue true sendOk queue).1 with hq1
  by_cases h1 : q1.isEmpty = true
  · rw [show processQueue true sendOk q1 = (q1, []) from by simp [processQueue, h1]] at he
    exact absurd he (List.not_mem_nil e)
  · rw [show processQueue true sendOk q1 = (drainLoop sendOk q1 q1, q1) from by
        simp [processQueue, h1]] at he
    exact hfinal e he

/-- Witness for the amended C10: id x succeeds, so the surviving entry
has a different id and every snapshot entry was attempted. -/
theorem remove_deletes_all_matching_amended_witness :
    (mkEvent "b").eventId ≠ "x" ∧
    (processQueue true (fun e => e.eventId == "x") [mkEvent "x", mkEvent "b"]).2
      = [mkEvent "x", mkEvent "b"] := by
  have h := remove_deletes_all_matching_amended [mkEvent "x", mkEvent "b"]
      (fun e => e.eventId == "x") "x" ⟨mkEvent "x", by decide, by decide, by decide⟩
  exact ⟨h.1 (mkEvent "b") (by decide), h.2.2.1⟩

/-! ## Breadcrumb buffer (src/breadcrumbs.ts, BreadcrumbManager) -/

/-- JavaScript Array.prototype.slice with a single negated-count
argument, as in slice(-k): for k positive the start index is the length
minus k clamped at 0, giving the last k elements; for k = 0 the start
index is 0 (negative zero equals zero), giving the whole array. -/
def jsSliceFromEnd {α : Type} (l : List α) (k : Nat) : List α :=
  if k = 0 then l else l.drop (l.length - k)

/-- BreadcrumbManager.add (breadcrumbs.ts lines 17 to 37): push, then
trim with slice(-maxBreadcrumbs) when the length exceeds the maximum. -/
def BreadcrumbManager.add (maxBreadcrumbs : Nat) (l : List Breadcrumb) (b : Breadcrumb) :
    List Breadcrumb :=
  if maxBreadcrumbs < (l ++ [b]).length then jsSliceFromEnd (l ++ [b]) maxBreadcrumbs
  else l ++ [b]

/-- A sequence of add calls starting from a given buffer state. -/
def BreadcrumbManager.addAll (maxBreadcrumbs : Nat) (init bs : List Breadcrumb) :
    List Breadcrumb :=
  bs.foldl (BreadcrumbManager.add maxBreadcrumbs) init

/-- BreadcrumbManager.getAll (breadcrumbs.ts lines 58 to 60): a fresh
copy of the buffer contents, in insertion order. -/
def BreadcrumbManager.getAll (l : List Breadcrumb) : List Breadcrumb :=
  l

/-- A concrete breadcrumb used in concrete evaluations. -/
def mkCrumb (msg : String) : Breadcrumb :=
  { timestamp := 0, category := "custom", message := msg, level := some "info", data := none }

/-- An add into a buffer below capacity appends. -/
lemma breadcrumb_add_low (N : Nat) (l : List Breadcrumb) (b : Breadcrumb)
    (h : l.length < N) : BreadcrumbManager.add N l b = l ++ [b] := by
  have hc : ¬ N < (l ++ [b]).length := by simp; omega
  simp only [BreadcrumbManager.add]
  rw [if_neg hc]

/-- An add into a buffer at positive capacity drops the oldest entry. -/
lemma breadcrumb_add_full (N : Nat) (hN : 1 ≤ N) (l : List Breadcrumb) (b : Breadcrumb)
    (h : l.length = N) : BreadcrumbManager.add N l b = (l ++ [b]).drop 1 := by
  have h1 : N < (l ++ [b]).length := by simp; omega
  have h2 : ¬ N = 0 := by omega
  have h3 : (l ++ [b]).length - N = 1 := by simp; omega
  simp only [BreadcrumbManager.add]
  rw [if_pos h1]
  simp only [jsSliceFromEnd]
  rw [if_neg h2, h3]

/-- C5 counterexample: with maxBreadcrumbs = 0, the trim is
slice(-0) = slice(0), which keeps the whole array, so one add (a
sequence longer than N = 0) leaves a snapshot of length 1 > 0. -/
theorem breadcrumb_capacity_zero_counterexample :
    (BreadcrumbManager.getAll (BreadcrumbManager.addAll 0 [] [mkCrumb "b1"])).length = 1 := by
  decide

/-- C5 amended: for maxBreadcrumbs = N at least 1, after any sequence
of add calls into an initially empty buffer the snapshot is exactly the
newest-N suffix of the added breadcrumbs in insertion order, so its
length is at most N, and a sequence longer than N leaves exactly N. -/
theorem breadcrumb_capacity_amended (N : Nat) (hN : 1 ≤ N) (bs : List Breadcrumb) :
    BreadcrumbManager.getAll (BreadcrumbManager.addAll N [] bs)
      = bs.drop (bs.length - N) ∧
    (BreadcrumbManager.addAll N [] bs).length ≤ N ∧
    (N < bs.length → (BreadcrumbManager.addAll N [] bs).length = N) := by
  have main : BreadcrumbManager.addAll N [] bs = bs.drop (bs.length - N) := by
    have h := bounded_foldl_suffix N hN (BreadcrumbManager.add N)
      (fun l x h => breadcrumb_add_low N l x h)
      (fun l x h => breadcrumb_add_full N hN l x h) bs [] (by simp)
    simpa using h
  refine ⟨main, ?_, ?_⟩
  · rw [main, List.length_drop]
    omega
  · intro h
    rw [main, List.length_drop]
    omega

/-- Witness for the amended C5 at capacity 2 with three adds. -/
theorem breadcrumb_capacity_amended_witness :
    BreadcrumbManager.getAll (BreadcrumbManager.addAll 2 [] [mkCrumb "b1", mkCrumb "b2", mkCrumb "b3"])
      = [mkCrumb "b2", mkCrumb "b3"] ∧
    (BreadcrumbManager.addAll 2 [] [mkCrumb "b1", mkCrumb "b2", mkCrumb "b3"]).length = 2 := by
  have h := breadcrumb_capacity_amended 2 (by decide) [mkCrumb "b1", mkCrumb "b2", mkCrumb "b3"]
  exact ⟨by rw [h.1]; decide, h.2.2 (by decide)⟩

/-- Serializing one breadcrumb to the persisted form and deserializing
it reproduces it. -/
lemma breadcrumb_roundtrip (b : Breadcrumb) :
    ({ timestamp := Date.parse (persistBreadcrumb b).timestamp
       category := (persistBreadcrumb b).category
       message := (persistBreadcrumb b).message
       level := (persistBreadcrumb b).level
       data := (persistBreadcrumb b).data } : Breadcrumb) = b := by
  cases b
  rfl

/-- C8: serializing a queue entry to the persisted storage form
(JSON.stringify with Dates as ISO-8601 strings) and deserializing it on
load reproduces the entry exactly: the event timestamp, every breadcrumb
timestamp and the journey startedAt survive at the millisecond precision
of the wire format, and the breadcrumb and journey sub-structures are
reproduced identically. -/
theorem queue_entry_roundtrip (e : TelemetryEvent) :
    OfflineQueue.deserializeEvent (persistEvent e) = e := by
  cases e with
  | mk eventId timestamp level message exception user tags extra breadcrumbs journey env appv platform =>
      simp only [OfflineQueue.deserializeEvent, persistEvent, persistBreadcrumb,
        persistJourney, Date.parse, Date.toISOString, List.map_map]
      refine TelemetryEvent.mk.injEq .. ▸ ?_
      simp only [and_true, true_and]
      constructor
      · have : ∀ b : Breadcrumb,
            ({ timestamp := b.timestamp
               category := b.category
               message := b.message
               level := b.level
               data := b.data } : Breadcrumb) = b := fun b => by cases b; rfl
        calc breadcrumbs.map _ = breadcrumbs.map id := List.map_congr_left (fun b _ => this b)
          _ = breadcrumbs := List.map_id breadcrumbs
      · cases journey with
        | none => rfl
        | some j => cases j; rfl

/-! ## Transport (transport.ts, Transport.send lines 20 to 64)

One network exchange is modelled by its outcome: either the fetch
promise rejects (network error), or a response arrives with a status,
a body text, and the result of attempting to parse the body as JSON.
JavaScript exceptions inside the try block are modelled by Except; the
catch block turns any of them into a failure result. -/

/-- The JSON body of a successful response, reduced to the only field
send reads: an optional server-assigned eventId. -/
structure RespJson where
  eventId : Option String
deriving DecidableEq, Repr

/-- The result of response.json(): a parsed object, or a thrown parse
error (for an empty or malformed body). -/
inductive JsonParse where
  | ok (j : RespJson)
  | err (msg : String)
deriving DecidableEq, Repr

/-- The outcome of the single fetch performed by Transport.send. -/
inductive FetchOutcome where
  | networkError (msg : String)
  | response (status : Nat) (bodyText : String) (json : JsonParse)
deriving DecidableEq, Repr

/-- Response.ok: status in the 2xx range. -/
def respOk (status : Nat) : Bool :=
  200 ≤ status && status < 300

/-- The try block of Transport.send; a JavaScript throw is an
Except.error carrying the error message. -/
def Transport.sendTry (ev : TelemetryEvent) (o : FetchOutcome) : Except String SendResult :=
  match o with
  | .networkError msg => .error msg
  | .response status bodyText json =>
      if !(respOk status) then
        .ok { success := false, eventId := none
              error := some ("HTTP " ++ toString status ++ ": " ++ bodyText)
              queued := none }
      else
        match json with
        | .err msg => .error msg
        | .ok j =>
            .ok { success := true, eventId := some (j.eventId.getD ev.eventId)
                  error := none, queued := none }

/-- Transport.send: the try block with its catch, which converts any
thrown error into a failure result, so send never throws. -/
def Transport.send (ev : TelemetryEvent) (o : FetchOutcome) : SendResult :=
  match Transport.sendTry ev o with
  | .ok r => r
  | .error msg => { success := false, eventId := none, error := some msg, queued := none }

/-- C7 counterexample: a 2xx response whose body is empty (so
response.json() throws) produces a failure result, although the claim
says every 2xx response yields success with the JSON body optional. -/
theorem transport_send_empty_body_counterexample :
    (Transport.send (mkEvent "a")
        (.response 200 "" (.err "Unexpected end of JSON input"))).success = false ∧
    (Transport.send (mkEvent "a")
        (.response 200 "" (.err "Unexpected end of JSON input"))).error
      = some "Unexpected end of JSON input" := by
  decide

/-- C7 amended: Transport.send never throws — every outcome maps to a
result, failures always carrying an error string; a 2xx response yields
success only when its body parses as JSON, with the server-assigned
eventId when present and the client id otherwise, while a 2xx response
with an unparsable (for example empty) body yields a failure carrying
the parse error; every non-2xx response yields a failure carrying the
status and body text; every network error yields a failure carrying its
message. -/
theorem transport_send_result_amended (ev : TelemetryEvent) (status : Nat)
    (body : String) (j : RespJson) (perr netmsg : String) (jp : JsonParse) :
    (∀ o : FetchOutcome, (Transport.send ev o).success = true ∨
      ∃ m, (Transport.send ev o).error = some m) ∧
    (respOk status = true → Transport.send ev (.response status body (.ok j))
      = { success := true, eventId := some (j.eventId.getD ev.eventId)
          error := none, queued := none }) ∧
    (respOk status = true → Transport.send ev (.response status body (.err perr))
      = { success := false, eventId := none, error := some perr, queued := none }) ∧
    (respOk status = false → Transport.send ev (.response status body jp)
      = { success := false, eventId := none
          error := some ("HTTP " ++ toString status ++ ": " ++ body)
          queued := none }) ∧
    (Transport.send ev (.networkError netmsg)
      = { success := false, eventId := none, error := some netmsg, queued := none }) := by
  refine ⟨?_, ?_, ?_, ?_, rfl⟩
  · intro o
    cases o with
    | networkError msg => exact Or.inr ⟨msg, rfl⟩
    | response status bodyText json =>
        by_cases h : respOk status = true
        · cases json with
          | ok j2 => simp [Transport.send, Transport.sendTry, h]
          | err m => exact Or.inr ⟨m, by simp [Transport.send, Transport.sendTry, h]⟩
        · have hf : respOk status = false := by
            revert h
            cases respOk status <;> simp
          exact Or.inr ⟨"HTTP " ++ toString status ++ ": " ++ bodyText,
            by simp [Transport.send, Transport.sendTry, hf]⟩
  · intro h
    simp [Transport.send, Transport.sendTry, h]
  · intro h
    simp [Transport.send, Transport.sendTry, h]
  · intro h
    cases jp <;> simp [Transport.send, Transport.sendTry, h]

/-- Witness for the amended C7 at concrete outcomes: a 2xx response with
a server-assigned id, a 2xx response with an unparsable body, a 404, and
a network error. -/
theorem transport_send_result_amended_witness :
    Transport.send (mkEvent "a") (.response 200 "" (.ok ⟨some "srv"⟩))
      = { success := true, eventId := some "srv", error := none, queued := none } ∧
    Transport.send (mkEvent "a") (.response 204 "" (.err "empty"))
      = { success := false, eventId := none, error := some "empty", queued := none } ∧
    Transport.send (mkEvent "a") (.response 404 "missing" (.ok ⟨none⟩))
      = { success := false, eventId := none
          error := some ("HTTP " ++ toString 404 ++ ": " ++ "missing"), queued := none } ∧
    Transport.send (mkEvent "a") (.networkError "ECONNREFUSED")
      = { success := false, eventId := none, error := some "ECONNREFUSED", queued := none } := by
  have h := transport_send_result_amended (mkEvent "a") 200 "" ⟨some "srv"⟩ "empty"
      "ECONNREFUSED" (.ok ⟨none⟩)
  have h2 := transport_send_result_amended (mkEvent "a") 204 "" ⟨some "srv"⟩ "empty"
      "ECONNREFUSED" (.ok ⟨none⟩)
  have h4 := transport_send_result_amended (mkEvent "a") 404 "missing" ⟨some "srv"⟩ "empty"
      "ECONNREFUSED" (.ok ⟨none⟩)
  exact ⟨h.2.1 (by decide), h2.2.2.1 (by decide), h4.2.2.2.1 (by decide), h.2.2.2.2⟩

/-! ## Send pipeline (client.ts, TelemetryClient.sendEvent lines 201 to 230)

The uniform draw of Math.random() and the configured sample rate are
modelled as rationals; the draw lies in [0, 1).  The observable side
effects of one sendEvent call are recorded as an ordered action trace. -/

/-- The value returned by the beforeSend hook: a boolean or a
replacement event. -/
inductive HookResult where
  | bool (b : Bool)
  | event (e : TelemetryEvent)
deriving DecidableEq, Repr

/-- One observable side effect of sendEvent, in order of occurrence. -/
inductive SendAction where
  | hookCall
  | transportSend (e : TelemetryEvent)
  | enqueued (e : TelemetryEvent)
deriving DecidableEq, Repr

/-- TelemetryClient.sendEvent: the sampling check Math.random() >
sampleRate comes first; only past it does the beforeSend hook run,
then transport.send on the kept event, then the enqueue fallback when
the send failed and the offline queue is enabled. -/
def sendEvent (sampleRate rand : ℚ) (beforeSend : TelemetryEvent → HookResult)
    (transport : TelemetryEvent → SendResult) (queueEnabled : Bool)
    (ev : TelemetryEvent) : SendResult × List SendAction :=
  if sampleRate < rand then
    ({ success := true, eventId := some ev.eventId, error := none, queued := none }, [])
  else
    let deliver := fun (eventToSend : TelemetryEvent) =>
      let r := transport eventToSend
      if !r.success && queueEnabled then
        ({ r with queued := some true },
          [SendAction.hookCall, SendAction.transportSend eventToSend,
            SendAction.enqueued eventToSend])
      else
        (r, [SendAction.hookCall, SendAction.transportSend eventToSend])
    match beforeSend ev with
    | .bool false =>
        ({ success := true, eventId := some ev.eventId, error := none, queued := none },
          [SendAction.hookCall])
    | .bool true => deliver ev
    | .event e2 => deliver e2

/-- C3 counterexample: Math.random() draws from [0, 1) and can return
exactly 0; with sample rate 0.0 and draw 0 the check 0 > 0 fails, so
the pipeline proceeds and invokes Transport.send instead of dropping
the event. -/
theorem sampling_zero_draw_counterexample :
    (sendEvent 0 0 (fun _ => .bool true)
        (fun e => { success := true, eventId := some e.eventId, error := none, queued := none })
        true (mkEvent "a")).2
      = [SendAction.hookCall, SendAction.transportSend (mkEvent "a")] := by
  decide

/-- C3 amended: with sample rate 0.0 every strictly positive draw in
(0, 1) short-circuits to a successful no-op before the hook and before
any side effect (the event is neither sent nor queued), but the draw 0
is the one value in [0, 1) that proceeds; with sample rate 1.0 every
draw in [0, 1) passes sampling — the hook is always the first action —
and whenever the hook does not drop, Transport.send is invoked. -/
theorem sampling_boundary_amended (rand : ℚ)
    (beforeSend : TelemetryEvent → HookResult)
    (transport : TelemetryEvent → SendResult) (queueEnabled : Bool)
    (ev : TelemetryEvent) :
    (0 < rand → rand < 1 →
      sendEvent 0 rand beforeSend transport queueEnabled ev
        = ({ success := true, eventId := some ev.eventId, error := none, queued := none },
            [])) ∧
    (0 ≤ rand → rand < 1 →
      (sendEvent 1 rand beforeSend transport queueEnabled ev).2.head?
        = some SendAction.hookCall) ∧
    (0 ≤ rand → rand < 1 → beforeSend ev = .bool true →
      SendAction.transportSend ev
        ∈ (sendEvent 1 rand beforeSend transport queueEnabled ev).2) ∧
    (0 ≤ rand → rand < 1 → ∀ e2, beforeSend ev = .event e2 →
      SendAction.transportSend e2
        ∈ (sendEvent 1 rand beforeSend transport queueEnabled ev).2) := by
  refine ⟨?_, ?_, ?_, ?_⟩
  · intro h0 h1
    simp [sendEvent, h0]
  · intro h0 h1
    have hns : ¬ (1 : ℚ) < rand := by linarith
    simp only [sendEvent, if_neg hns]
    cases hbs : beforeSend ev with
    | bool b =>
        cases b
        · simp
        · simp only []
          split
          · simp
          · simp
    | event e2 =>
        simp only []
        split
        · simp
        · simp
  · intro h0 h1 hbs
    have hns : ¬ (1 : ℚ) < rand := by linarith
    simp only [sendEvent, if_neg hns, hbs]
    split <;> simp
  · intro h0 h1 e2 hbs
    have hns : ¬ (1 : ℚ) < rand := by linarith
    simp only [sendEvent, if_neg hns, hbs]
    split <;> simp

/-- Witness for the amended C3 at the concrete draw one half. -/
theorem sampling_boundary_amended_witness :
    sendEvent 0 (1 / 2) (fun _ => .bool true)
        (fun e => { success := true, eventId := some e.eventId, error := none, queued := none })
        true (mkEvent "a")
      = ({ success := true, eventId := some (mkEvent "a").eventId
           error := none, queued := none }, []) ∧
    (sendEvent 1 (1 / 2) (fun _ => .bool true)
        (fun e => { success := true, eventId := some e.eventId, error := none, queued := none })
        true (mkEvent "a")).2.head? = some SendAction.hookCall ∧
    SendAction.transportSend (mkEvent "a")
      ∈ (sendEvent 1 (1 / 2) (fun _ => .bool true)
          (fun e => { success := true, eventId := some e.eventId, error := none, queued := none })
          true (mkEvent "a")).2 := by
  have h := sampling_boundary_amended (1 / 2) (fun _ => .bool true)
      (fun e => { success := true, eventId := some e.eventId, error := none, queued := none })
      true (mkEvent "a")
  exact ⟨h.1 (by norm_num) (by norm_num),
    h.2.1 (by norm_num) (by norm_num),
    h.2.2.1 (by norm_num) (by norm_num) rfl⟩

/-! ## Journey scopes and the current-journey reference
(client.ts, TelemetryClient.startJourney lines 130 to 141; journey
module, JourneyScope dispose lines 194 to 199)

startJourney stores the new Journey in the client and hands back a
JourneyScope whose detach callback sets the current-journey reference
to undefined without comparing it to the scope's own journey.  Only
the fields this claim observes are modelled: the current-journey
reference and the per-journey completion flag. -/

/-- The client state relevant to journey scoping: the current-journey
reference and the set of journey ids already completed or failed. -/
structure ClientJourneys where
  currentJourney : Option String
  completed : List String
deriving DecidableEq, Repr

/-- TelemetryClient.startJourney: overwrite the current-journey
reference and return a scope remembering its own journey id. -/
def startJourney (c : ClientJourneys) (jid : String) : ClientJourneys × String :=
  ({ c with currentJourney := some jid }, jid)

/-- JourneyScope dispose: complete the scope's journey when it is not
already complete, then run the detach callback, which unconditionally
clears the current-journey reference. -/
def disposeJourneyScope (c : ClientJourneys) (scopeJid : String) : ClientJourneys :=
  let c1 := if c.completed.contains scopeJid then c
            else { c with completed := scopeJid :: c.completed }
  { c1 with currentJourney := none }

/-- TelemetryClient.createEvent: the journey field of a built event is
the context of the current journey, or none when the reference is
cleared. -/
def builtEventJourney (c : ClientJourneys) : Option String :=
  c.currentJourney

/-- C9: after two startJourney calls, disposing the first (older) scope
unconditionally clears the current-journey reference — the second
journey, still not completed, is detached — and events built afterwards
carry no journey context. -/
theorem dispose_older_scope_detaches_current (c0 : ClientJourneys) (j1 j2 : String)
    (hne : j1 ≠ j2)
    (h1fresh : c0.completed.contains j1 = false)
    (h2fresh : c0.completed.contains j2 = false) :
    (disposeJourneyScope (startJourney (startJourney c0 j1).1 j2).1 j1).currentJourney
        = none ∧
    builtEventJourney (disposeJourneyScope (startJourney (startJourney c0 j1).1 j2).1 j1)
        = none ∧
    (disposeJourneyScope (startJourney (startJourney c0 j1).1 j2).1 j1).completed.contains j2
        = false ∧
    (disposeJourneyScope (startJourney (startJourney c0 j1).1 j2).1 j1).completed.contains j1
        = true := by
  refine ⟨rfl, rfl, ?_, ?_⟩
  · simp only [disposeJourneyScope, startJourney, h1fresh]
    simp [List.contains_cons, BEq.comm]
    refine ⟨fun hcon => hne hcon.symm, ?_⟩
    intro hmem
    have hc : c0.completed.contains j2 = true := by
      simp [List.contains, List.elem_iff]
      exact hmem
    rw [h2fresh] at hc
    exact Bool.false_ne_true hc
  · simp only [disposeJourneyScope, startJourney, h1fresh]
    simp [List.contains_cons]

/-- Witness for C9 on a fresh client with two concrete journeys. -/
theorem dispose_older_scope_detaches_current_witness :
    (disposeJourneyScope (startJourney (startJourney ⟨none, []⟩ "j1").1 "j2").1 "j1").currentJourney
        = none ∧
    (disposeJourneyScope (startJourney (startJourney ⟨none, []⟩ "j1").1 "j2").1 "j1").completed.contains "j2"
        = false := by
  have h := dispose_older_scope_detaches_current ⟨none, []⟩ "j1" "j2"
      (by decide) (by decide) (by decide)
  exact ⟨h.1, h.2.2.1⟩

/-! ## Event snapshot aliasing
(client.ts, TelemetryClient.createEvent lines 174 to 196; journey
module, Journey.getContext lines 89 to 97)

createEvent copies the tag and extra mappings and takes a fresh array
of breadcrumbs from getAll(), but Journey.getContext returns the
journey context with metadata bound to the same object as the live
journey field this.metadata.  JavaScript object identity is modelled by
a store of metadata objects addressed by index: an event built while a
journey is active holds the address of the live metadata object, and
Journey.setMetadata mutates the object at that address in place. -/

/-- JavaScript object property assignment on a string-keyed record:
overwrite an existing key in place, else append. -/
def recordSet (l : List (String × JVal)) (k : String) (v : JVal) : List (String × JVal) :=
  if l.any (fun p => p.1 == k) then
    l.map (fun p => if p.1 == k then (k, v) else p)
  else l ++ [(k, v)]

/-- The mutable state visible to createEvent: the heap of metadata
objects, the live breadcrumb array of the BreadcrumbManager, and the
current journey with the address of its metadata object and its
current step name. -/
structure ClientMem where
  store : List (List (String × JVal))
  liveBreadcrumbs : List Breadcrumb
  journeyMetaAddr : Option Nat
  journeyStepName : Option String
deriving DecidableEq, Repr

/-- The journey-relevant part of a built event: createEvent copies the
breadcrumb array (getAll returns a fresh array) and the current step
name (a string), but getContext hands over the metadata object itself,
so the event stores its address. -/
structure EventSnapshot where
  breadcrumbs : List Breadcrumb
  journeyMetaAddr : Option Nat
  journeyStep : Option String
deriving DecidableEq, Repr

/-- TelemetryClient.createEvent restricted to the snapshot fields. -/
def createEventSnapshot (m : ClientMem) : EventSnapshot :=
  { breadcrumbs := BreadcrumbManager.getAll m.liveBreadcrumbs
    journeyMetaAddr := m.journeyMetaAddr
    journeyStep := m.journeyStepName }

/-- In-place update of the object at one address of a heap. -/
def listModify {α : Type} (l : List α) (i : Nat) (f : α → α) : List α :=
  match l, i with
  | [], _ => []
  | a :: t, 0 => f a :: t
  | a :: t, n + 1 => a :: listModify t n f

/-- Journey.setMetadata: mutate the live metadata object in place. -/
def journeySetMetadata (m : ClientMem) (k : String) (v : JVal) : ClientMem :=
  match m.journeyMetaAddr with
  | some a => { m with store := listModify m.store a (fun meta => recordSet meta k v) }
  | none => m

/-- BreadcrumbManager.add on the live buffer. -/
def clientAddBreadcrumb (m : ClientMem) (maxBreadcrumbs : Nat) (b : Breadcrumb) : ClientMem :=
  { m with liveBreadcrumbs := BreadcrumbManager.add maxBreadcrumbs m.liveBreadcrumbs b }

/-- BreadcrumbManager.clear on the live buffer. -/
def clientClearBreadcrumbs (m : ClientMem) : ClientMem :=
  { m with liveBreadcrumbs := [] }

/-- Journey.startStep changes only the live current-step pointer. -/
def clientStartStep (m : ClientMem) (name : String) : ClientMem :=
  { m with journeyStepName := some name }

/-- Reading the journey metadata of a built event dereferences the
stored address in the current heap. -/
def observedMetadata (store : List (List (String × JVal))) (ev : EventSnapshot) :
    Option (List (String × JVal)) :=
  match ev.journeyMetaAddr with
  | some a => store.get? a
  | none => none

/-- C6 (code bug): an event is built while a journey with empty
metadata is active; afterwards Journey.setMetadata("k", "v") on the
live journey changes the metadata observed through the already-built
event, because getContext passed this.metadata by reference — while
the same mutations of the live breadcrumb buffer and current-step
pointer leave the event snapshot untouched, as the claim demands. -/
theorem event_journey_metadata_aliasing :
    (observedMetadata
        ({ store := [[]], liveBreadcrumbs := [mkCrumb "b1"]
           journeyMetaAddr := some 0, journeyStepName := some "s1" } : ClientMem).store
        (createEventSnapshot
          { store := [[]], liveBreadcrumbs := [mkCrumb "b1"]
            journeyMetaAddr := some 0, journeyStepName := some "s1" })
      = some []) ∧
    (observedMetadata
        (journeySetMetadata
          { store := [[]], liveBreadcrumbs := [mkCrumb "b1"]
            journeyMetaAddr := some 0, journeyStepName := some "s1" }
          "k" (JVal.str "v")).store
        (createEventSnapshot
          { store := [[]], liveBreadcrumbs := [mkCrumb "b1"]
            journeyMetaAddr := some 0, journeyStepName := some "s1" })
      = some [("k", JVal.str "v")]) ∧
    ((clientStartStep
        (clientAddBreadcrumb
          { store := [[]], liveBreadcrumbs := [mkCrumb "b1"]
            journeyMetaAddr := some 0, journeyStepName := some "s1" }
          100 (mkCrumb "b2")) "s2") |> fun m2 =>
      (createEventSnapshot
          { store := [[]], liveBreadcrumbs := [mkCrumb "b1"]
            journeyMetaAddr := some 0, journeyStepName := some "s1" }).breadcrumbs
        = [mkCrumb "b1"] ∧
      m2.liveBreadcrumbs = [mkCrumb "b1", mkCrumb "b2"] ∧
      (createEventSnapshot
          { store := [[]], liveBreadcrumbs := [mkCrumb "b1"]
            journeyMetaAddr := some 0, journeyStepName := some "s1" }).journeyStep
        = some "s1" ∧
      m2.journeyStepName = some "s2") := by
  decide

/-! ## Journey and Step state machine (journey module)

A Journey owns an ordered list of steps; its currentStep reference
always points at the most recently started step, modelled by its index.
A Step handle wraps a reference to one JourneyStep object, modelled by
the index of that object in the list; its terminal transitions write
through the index unconditionally.  Times are passed explicitly. -/

/-- The status of a step (types.ts, JourneyStep.status). -/
inductive StepStatus where
  | in_progress
  | completed
  | failed
deriving DecidableEq, Repr

/-- A step record (types.ts, JourneyStep). -/
structure JourneyStep where
  name : String
  category : Option String
  startedAt : Int
  endedAt : Option Int
  status : StepStatus
  data : List (String × JVal)
deriving DecidableEq, Repr

/-- The mutable state of one Journey. -/
structure JourneyState where
  steps : List JourneyStep
  currentStep : Option Nat
  completed : Bool
  failed : Bool
deriving DecidableEq, Repr

/-- A freshly constructed Journey. -/
def Journey.new : JourneyState :=
  { steps := [], currentStep := none, completed := false, failed := false }

/-- The shared cascade of Journey.startStep, Journey.complete and
Journey.fail: when the current step exists and is in progress, stamp it
with the given terminal status and end time. -/
def completeCurrentIfInProgress (j : JourneyState) (st : StepStatus) (t : Int) :
    List JourneyStep :=
  match j.currentStep with
  | some i =>
      match j.steps[i]? with
      | some s =>
          if s.status = StepStatus.in_progress then
            listModify j.steps i (fun s0 => { s0 with status := st, endedAt := some t })
          else j.steps
      | none => j.steps
  | none => j.steps

/-- Journey.startStep (journey module lines 43 to 62): complete any
existing in-progress step, then push a fresh in-progress step and make
it current; returns the new state and the handle of the new step. -/
def JourneyState.startStep (j : JourneyState) (name : String) (category : Option String)
    (t : Int) : JourneyState × Nat :=
  let steps1 := completeCurrentIfInProgress j StepStatus.completed t
  ({ steps := steps1 ++
        [{ name := name, category := category, startedAt := t, endedAt := none
           status := StepStatus.in_progress, data := [] }]
     currentStep := some steps1.length
     completed := j.completed
     failed := j.failed }, steps1.length)

/-- Journey.complete (journey module lines 67 to 73). -/
def JourneyState.complete (j : JourneyState) (t : Int) : JourneyState :=
  { j with steps := completeCurrentIfInProgress j StepStatus.completed t, completed := true }

/-- Journey.fail (journey module lines 78 to 84). -/
def JourneyState.fail (j : JourneyState) (t : Int) : JourneyState :=
  { j with steps := completeCurrentIfInProgress j StepStatus.failed t, failed := true }

/-- Step.complete through a handle (journey module lines 144 to 147):
unconditionally stamp completed and the end time. -/
def Step.completeAt (j : JourneyState) (i : Nat) (t : Int) : JourneyState :=
  { j with
      steps := listModify j.steps i
          (fun s0 => { s0 with status := StepStatus.completed, endedAt := some t }) }

/-- Step.fail through a handle (journey module lines 152 to 155). -/
def Step.failAt (j : JourneyState) (i : Nat) (t : Int) : JourneyState :=
  { j with
      steps := listModify j.steps i
          (fun s0 => { s0 with status := StepStatus.failed, endedAt := some t }) }

/-- Step.setData through a handle (journey module lines 136 to 139). -/
def Step.setDataAt (j : JourneyState) (i : Nat) (k : String) (v : JVal) : JourneyState :=
  { j with
      steps := listModify j.steps i
          (fun s0 => { s0 with data := recordSet s0.data k v }) }

/-- One call of the Journey/Step API, with handle indices and times
explicit. -/
inductive JourneyOp where
  | startStep (name : String) (category : Option String) (t : Int)
  | stepComplete (i : Nat) (t : Int)
  | stepFail (i : Nat) (t : Int)
  | setData (i : Nat) (k : String) (v : JVal)
  | complete (t : Int)
  | fail (t : Int)
deriving DecidableEq, Repr

/-- Apply one API call to the journey state. -/
def JourneyState.applyOp (j : JourneyState) (op : JourneyOp) : JourneyState :=
  match op with
  | .startStep name category t => (j.startStep name category t).1
  | .stepComplete i t => Step.completeAt j i t
  | .stepFail i t => Step.failAt j i t
  | .setData i k v => Step.setDataAt j i k v
  | .complete t => JourneyState.complete j t
  | .fail t => JourneyState.fail j t

/-- The journey state after a sequence of calls on a fresh Journey. -/
def runJourney (ops : List JourneyOp) : JourneyState :=
  ops.foldl JourneyState.applyOp Journey.new

/-- The internal invariant: the current-step reference points at the
last step, and only the last step can be in progress. -/
def stepInv (j : JourneyState) : Prop :=
  j.currentStep = (if j.steps.length = 0 then none else some (j.steps.length - 1)) ∧
  ∀ i s, j.steps[i]? = some s → s.status = StepStatus.in_progress → i + 1 = j.steps.length

/-- listModify preserves length. -/
lemma listModify_length {α : Type} (l : List α) (i : Nat) (f : α → α) :
    (listModify l i f).length = l.length := by
  induction l generalizing i with
  | nil => rfl
  | cons a t ih =>
      cases i with
      | zero => rfl
      | succ n => simp [listModify, ih]

/-- Reading a modified heap: the modified address maps through f, every
other address is unchanged. -/
lemma listModify_getElem? {α : Type} (l : List α) (i : Nat) (f : α → α) (k : Nat) :
    (listModify l i f)[k]? = if k = i then (l[k]?).map f else l[k]? := by
  induction l generalizing i k with
  | nil =>
      simp [listModify]
  | cons a t ih =>
      cases i with
      | zero =>
          cases k with
          | zero => simp [listModify]
          | succ m => simp [listModify]
      | succ n =>
          cases k with
          | zero => simp [listModify]
          | succ m =>
              simp only [listModify, List.getElem?_cons_succ]
              rw [ih n m]
              by_cases h : m = n
              · simp [h]
              · have h2 : ¬ m + 1 = n + 1 := fun hc => h (Nat.succ_injective hc)
                simp [h, h2]

/-- The cascade keeps the step count. -/
lemma completeCurrent_length (j : JourneyState) (st : StepStatus) (t : Int) :
    (completeCurrentIfInProgress j st t).length = j.steps.length := by
  unfold completeCurrentIfInProgress
  split
  · split
    · split
      · exact listModify_length ..
      · rfl
    · rfl
  · rfl

/-- Under the invariant, the cascade with a terminal status leaves no
step in progress. -/
lemma completeCurrent_no_inprogress (j : JourneyState) (hinv : stepInv j)
    (st : StepStatus) (hst : st ≠ StepStatus.in_progress) (t : Int) :
    ∀ (k : Nat) (s : JourneyStep), (completeCurrentIfInProgress j st t)[k]? = some s →
      s.status ≠ StepStatus.in_progress := by
  intro k s hk
  obtain ⟨hcur, honly⟩ := hinv
  unfold completeCurrentIfInProgress at hk
  split at hk
  next i hc =>
    split at hk
    next s0 hg =>
      split at hk
      next hs0 =>
        rw [listModify_getElem?] at hk
        by_cases hki : k = i
        · rw [if_pos hki, hki, hg] at hk
          have hs : s = { s0 with status := st, endedAt := some t } :=
            (Option.some.inj hk).symm
          rw [hs]
          exact hst
        · rw [if_neg hki] at hk
          intro hsin
          have hkl := honly k s hk hsin
          have hil := honly i s0 hg hs0
          omega
      next hs0 =>
        intro hsin
        have hkl := honly k s hk hsin
        have hlen0 : ¬ j.steps.length = 0 := by omega
        rw [hcur, if_neg hlen0] at hc
        have hi : j.steps.length - 1 = i := Option.some.inj hc
        have hki : k = i := by omega
        rw [hki, hg] at hk
        have : s0 = s := Option.some.inj hk
        rw [← this] at hsin
        exact hs0 hsin
    next hg =>
      intro hsin
      have hkl := honly k s hk hsin
      have hlen0 : ¬ j.steps.length = 0 := by omega
      rw [hcur, if_neg hlen0] at hc
      have hi : j.steps.length - 1 = i := Option.some.inj hc
      have hki : k = i := by omega
      rw [hki, hg] at hk
      exact absurd hk (by simp)
  next hc =>
    intro hsin
    have hkl := honly k s hk hsin
    have hlen0 : ¬ j.steps.length = 0 := by omega
    rw [hcur, if_neg hlen0] at hc
    simp at hc

/-- Under the invariant, the cascade applied while step i is in
progress stamps exactly that step with the terminal status and the end
time. -/
lemma completeCurrent_get_of_inprogress (j : JourneyState) (hinv : stepInv j)
    (st : StepStatus) (t : Int) (i : Nat) (s : JourneyStep)
    (hg : j.steps[i]? = some s) (hs : s.status = StepStatus.in_progress) :
    (completeCurrentIfInProgress j st t)[i]?
      = some { s with status := st, endedAt := some t } := by
  obtain ⟨hcur, honly⟩ := hinv
  have hil := honly i s hg hs
  have hlen0 : ¬ j.steps.length = 0 := by omega
  have hc : j.currentStep = some i := by
    rw [hcur, if_neg hlen0]
    congr 1
    omega
  unfold completeCurrentIfInProgress
  rw [hc]
  simp only [hg, if_pos hs]
  rw [listModify_getElem?, if_pos rfl, hg]
  rfl

/-- Writing one step through a handle preserves the invariant when the
write cannot set in-progress status. -/
lemma stepInv_modify (j : JourneyState) (hinv : stepInv j) (i : Nat)
    (f : JourneyStep → JourneyStep)
    (hf : ∀ s, (f s).status = StepStatus.in_progress →
      s.status = StepStatus.in_progress) :
    stepInv { j with steps := listModify j.steps i f } := by
  obtain ⟨hcur, honly⟩ := hinv
  constructor
  · simp only [listModify_length]
    exact hcur
  · intro k s hk hs
    have hk2 : (listModify j.steps i f)[k]? = some s := hk
    rw [listModify_getElem?] at hk2
    simp only [listModify_length]
    by_cases hki : k = i
    · rw [if_pos hki] at hk2
      cases hg : j.steps[k]? with
      | none => rw [hg] at hk2; simp at hk2
      | some s0 =>
          rw [hg] at hk2
          have hfs : f s0 = s := Option.some.inj hk2
          have hs0 : s0.status = StepStatus.in_progress := hf s0 (hfs ▸ hs)
          exact honly k s0 hg hs0
    · rw [if_neg hki] at hk2
      exact honly k s hk2 hs

/-- The terminal cascade of Journey.complete and Journey.fail preserves
the invariant whatever the flags become. -/
lemma stepInv_terminalCascade (j : JourneyState) (hinv : stepInv j)
    (st : StepStatus) (hst : st ≠ StepStatus.in_progress) (t : Int) (c f2 : Bool) :
    stepInv { steps := completeCurrentIfInProgress j st t
              currentStep := j.currentStep, completed := c, failed := f2 } := by
  constructor
  · simp only [completeCurrent_length]
    exact hinv.1
  · intro k s hk hs
    exact absurd hs (completeCurrent_no_inprogress j hinv st hst t k s hk)

/-- startStep preserves the invariant: the cascade leaves no step in
progress and the fresh step is the new last and current one. -/
lemma stepInv_startStep (j : JourneyState) (hinv : stepInv j) (name : String)
    (category : Option String) (t : Int) :
    stepInv (j.startStep name category t).1 := by
  constructor
  · simp [JourneyState.startStep]
  · intro k s hk hs
    have hk2 : (completeCurrentIfInProgress j StepStatus.completed t ++
        [{ name := name, category := category, startedAt := t, endedAt := none
           status := StepStatus.in_progress, data := [] }])[k]? = some s := hk
    rcases Nat.lt_trichotomy k (completeCurrentIfInProgress j StepStatus.completed t).length
      with hlt | heq | hgt
    · rw [List.getElem?_append_left hlt] at hk2
      exact absurd hs
        (completeCurrent_no_inprogress j hinv StepStatus.completed (by decide) t k s hk2)
    · simp only [JourneyState.startStep, List.length_append, List.length_cons,
        List.length_nil]
      omega
    · rw [List.getElem?_append_right (Nat.le_of_lt hgt)] at hk2
      have h1 : 1 ≤ k - (completeCurrentIfInProgress j StepStatus.completed t).length := by
        omega
      rw [List.getElem?_eq_none (by simpa using h1)] at hk2
      exact absurd hk2 (by simp)

/-- Every Journey/Step API call preserves the invariant. -/
lemma stepInv_applyOp (j : JourneyState) (hinv : stepInv j) (op : JourneyOp) :
    stepInv (j.applyOp op) := by
  cases op with
  | startStep name category t => exact stepInv_startStep j hinv name category t
  | stepComplete i t => exact stepInv_modify j hinv i _ (fun s h => by simp at h)
  | stepFail i t => exact stepInv_modify j hinv i _ (fun s h => by simp at h)
  | setData i k v => exact stepInv_modify j hinv i _ (fun s h => h)
  | complete t =>
      exact stepInv_terminalCascade j hinv StepStatus.completed (by decide) t true j.failed
  | fail t =>
      exact stepInv_terminalCascade j hinv StepStatus.failed (by decide) t j.completed true

/-- The invariant holds in every reachable journey state. -/
lemma stepInv_run (ops : List JourneyOp) : stepInv (runJourney ops) := by
  suffices h : ∀ (l : List JourneyOp) (j : JourneyState), stepInv j →
      stepInv (l.foldl JourneyState.applyOp j) by
    refine h ops Journey.new ⟨rfl, ?_⟩
    intro i s hk
    simp [Journey.new] at hk
  intro l
  induction l with
  | nil => intro j hj; exact hj
  | cons op rest ih =>
      intro j hj
      exact ih _ (stepInv_applyOp j hj op)

/-- C4: in every reachable journey state at most one step is in
progress, and startStep from such a state first stamps the previously
in-progress step as completed with a non-null end time, then appends
the fresh step in progress and makes it the current step — after which
it is the sole in-progress step. -/
theorem journey_single_active_step (ops : List JourneyOp) (name : String)
    (category : Option String) (t : Int) :
    (∀ (i k : Nat) (si sk : JourneyStep),
      (runJourney ops).steps[i]? = some si → (runJourney ops).steps[k]? = some sk →
      si.status = StepStatus.in_progress → sk.status = StepStatus.in_progress → i = k) ∧
    (∀ (i : Nat) (s : JourneyStep),
      (runJourney ops).steps[i]? = some s → s.status = StepStatus.in_progress →
      ((runJourney ops).startStep name category t).1.steps[i]?
        = some { s with status := StepStatus.completed, endedAt := some t }) ∧
    ((runJourney ops).startStep name category t).1.steps[(runJourney ops).steps.length]?
      = some { name := name, category := category, startedAt := t, endedAt := none
               status := StepStatus.in_progress, data := [] } ∧
    ((runJourney ops).startStep name category t).1.currentStep
      = some ((runJourney ops).steps.length) ∧
    (∀ (i k : Nat) (si sk : JourneyStep),
      ((runJourney ops).startStep name category t).1.steps[i]? = some si →
      ((runJourney ops).startStep name category t).1.steps[k]? = some sk →
      si.status = StepStatus.in_progress → sk.status = StepStatus.in_progress → i = k) := by
  have hinv := stepInv_run ops
  have hl : (completeCurrentIfInProgress (runJourney ops) StepStatus.completed t).length
      = (runJourney ops).steps.length := completeCurrent_length ..
  refine ⟨?_, ?_, ?_, ?_, ?_⟩
  · intro i k si sk hi hk hsi hsk
    have h1 := hinv.2 i si hi hsi
    have h2 := hinv.2 k sk hk hsk
    omega
  · intro i s hg hs
    have hil := hinv.2 i s hg hs
    have hlt : i < (completeCurrentIfInProgress (runJourney ops) StepStatus.completed t).length := by
      omega
    have hgoal : (completeCurrentIfInProgress (runJourney ops) StepStatus.completed t ++
        [{ name := name, category := category, startedAt := t, endedAt := none
           status := StepStatus.in_progress, data := [] }])[i]?
        = some { s with status := StepStatus.completed, endedAt := some t } := by
      rw [List.getElem?_append_left hlt]
      exact completeCurrent_get_of_inprogress (runJourney ops) hinv
        StepStatus.completed t i s hg hs
    exact hgoal
  · have hgoal : (completeCurrentIfInProgress (runJourney ops) StepStatus.completed t ++
        [{ name := name, category := category, startedAt := t, endedAt := none
           status := StepStatus.in_progress, data := [] }])[(runJourney ops).steps.length]?
        = some { name := name, category := category, startedAt := t, endedAt := none
                 status := StepStatus.in_progress, data := [] } := by
      rw [← hl, List.getElem?_concat_length]
    exact hgoal
  · have hgoal : some (completeCurrentIfInProgress (runJourney ops)
        StepStatus.completed t).length = some ((runJourney ops).steps.length) := by
      rw [hl]
    exact hgoal
  · have hinv2 : stepInv ((runJourney ops).startStep name category t).1 :=
      stepInv_startStep (runJourney ops) hinv name category t
    intro i k si sk hi hk hsi hsk
    have h1 := hinv2.2 i si hi hsi
    have h2 := hinv2.2 k sk hk hsk
    omega

/-- Witness for C4: start step validate, then start step pay; validate
is completed with a non-null end time and pay is current. -/
theorem journey_single_active_step_witness :
    ((runJourney [JourneyOp.startStep "validate" none 1]).startStep "pay" none 2).1.steps[0]?
      = some { name := "validate", category := none, startedAt := 1, endedAt := some 2
               status := StepStatus.completed, data := [] } ∧
    ((runJourney [JourneyOp.startStep "validate" none 1]).startStep "pay" none 2).1.steps[1]?
      = some { name := "pay", category := none, startedAt := 2, endedAt := none
               status := StepStatus.in_progress, data := [] } ∧
    ((runJourney [JourneyOp.startStep "validate" none 1]).startStep "pay" none 2).1.currentStep
      = some 1 := by
  have h := journey_single_active_step [JourneyOp.startStep "validate" none 1] "pay" none 2
  refine ⟨?_, ?_, ?_⟩
  · have h2 := h.2.1 0
      { name := "validate", category := none, startedAt := 1, endedAt := none
        status := StepStatus.in_progress, data := [] } (by decide) (by decide)
    exact h2
  · have h3 := h.2.2.1
    exact h3
  · have h4 := h.2.2.2.1
    exact h4
